import Mathlib

/-!
Verification of the metadata-update transaction builder
(`src/update-metadata/update-metadata.mjs`).

The script reads an on-chain metadata record, validates it (authority
mismatch is a warning, immutability is fatal), merges the new URI and the
optional new name/symbol into the record data, builds one update
instruction through the token-metadata library, adapts it to the generic
web3 instruction form, serializes an unsigned transaction with a
placeholder blockhash, and prints the base58 encoding of the bytes.

Pure program logic (env trimming, field merge, instruction extraction,
the adapter, the pipeline control flow) is embedded directly from the
source.  The pieces the script delegates to external libraries (the
update-metadata instruction builder, the wire serializer, base58) are
modelled from the spec, as marked on each definition.
-/

namespace UpdateMetadataTx

/-- Truthiness-carrying JavaScript value, used where the source applies
`Boolean(x)` or a truthiness test to a field of unknown type. -/
inductive JsVal where
  | undef : JsVal
  | nullv : JsVal
  | boolv (b : Bool) : JsVal
  | numv (n : Int) : JsVal
  | strv (s : String) : JsVal
deriving DecidableEq

/-- JavaScript truthiness: `Boolean(x)`. -/
def JsVal.truthy : JsVal → Bool
  | .undef => false
  | .nullv => false
  | .boolv b => b
  | .numv n => decide (n ≠ 0)
  | .strv s => decide (s ≠ "")

/-- JavaScript `String.prototype.trim`: strip leading and trailing
whitespace characters. -/
def jsTrim (s : String) : String :=
  String.mk (((s.toList.dropWhile Char.isWhitespace).reverse.dropWhile
    Char.isWhitespace).reverse)

/-- `mustEnv` from the source: a required environment variable; missing,
empty or whitespace-only values are a fatal input error, otherwise the
trimmed value is returned. -/
def mustEnv (name : String) (v : Option String) : Except String String :=
  match v with
  | none => .error ("Missing " ++ name ++ " in .env")
  | some s =>
    if jsTrim s = "" then .error ("Missing " ++ name ++ " in .env")
    else .ok (jsTrim s)

/-- `optEnv` from the source: an optional environment variable; missing,
empty or whitespace-only values become `none`, otherwise the trimmed
value is kept. -/
def optEnv (v : Option String) : Option String :=
  match v with
  | none => none
  | some s => if jsTrim s = "" then none else some (jsTrim s)

/-- A creator entry of the on-chain metadata record. -/
structure Creator where
  address : String
  verified : Bool
  share : Nat
deriving DecidableEq

/-- A collection reference of the on-chain metadata record. -/
structure CollectionRef where
  verified : Bool
  key : String
deriving DecidableEq

/-- A usage-limit descriptor of the on-chain metadata record. -/
structure UsesRef where
  useMethod : Nat
  remaining : Nat
  total : Nat
deriving DecidableEq

/-- The decoded on-chain metadata record, as the source reads it from
`fetchMetadata`.  Public keys are kept in their display form, matching
the string comparison the source performs. -/
structure Metadata where
  updateAuthority : String
  isMutable : Bool
  name : String
  symbol : String
  uri : String
  sellerFeeBasisPoints : Nat
  creators : Option (List Creator)
  collection : Option CollectionRef
  uses : Option UsesRef
  primarySaleHappened : Bool
deriving DecidableEq

/-- The `DataV2` payload the source assembles at lines 133-141. -/
structure DataV2 where
  name : String
  symbol : String
  uri : String
  sellerFeeBasisPoints : Nat
  creators : Option (List Creator)
  collection : Option CollectionRef
  uses : Option UsesRef
deriving DecidableEq

/-- The merge at lines 133-141 of the source: new URI always, new
name/symbol only when provided, every other field copied from the
record. -/
def buildData (md : Metadata) (newName newSymbol : Option String)
    (newUri : String) : DataV2 :=
  { name := newName.getD md.name
    symbol := newSymbol.getD md.symbol
    uri := newUri
    sellerFeeBasisPoints := md.sellerFeeBasisPoints
    creators := md.creators
    collection := md.collection
    uses := md.uses }

/-- An account entry of a native (UMI) instruction.  The signer and
writable flags are arbitrary JavaScript values until the adapter coerces
them with `Boolean(...)`. -/
structure UmiAccountMeta where
  pubkey : String
  isSigner : JsVal
  isWritable : JsVal
deriving DecidableEq

/-- A native (UMI) instruction as produced by the library builder. -/
structure UmiInstruction where
  programId : String
  keys : List UmiAccountMeta
  data : List Nat
deriving DecidableEq

/-- An account entry of a generic web3 instruction, with strict boolean
flags. -/
structure AccountMeta where
  pubkey : String
  isSigner : Bool
  isWritable : Bool
deriving DecidableEq

/-- A generic web3 `TransactionInstruction`. -/
structure TransactionInstruction where
  programId : String
  keys : List AccountMeta
  data : List Nat
deriving DecidableEq

/-- `toWeb3Instruction` from the source (lines 67-77): re-parse the
program id and each pubkey, coerce each flag with `Boolean(...)`, and
copy the data bytes with `Buffer.from`. -/
def toWeb3Instruction (ix : UmiInstruction) : TransactionInstruction :=
  { programId := ix.programId
    keys := ix.keys.map (fun k =>
      { pubkey := k.pubkey
        isSigner := k.isSigner.truthy
        isWritable := k.isWritable.truthy })
    data := ix.data }

/-- The shape of the library transaction builder as the source probes it
at lines 154-163: `getInstructions = some l` models a builder exposing a
`getInstructions` method returning `l`; `items = some its` models a
builder exposing an `items` array, an entry being `none` when the item
or its `.instruction` field is falsy. -/
structure TransactionBuilder where
  getInstructions : Option (List UmiInstruction)
  items : Option (List (Option UmiInstruction))
deriving DecidableEq

/-- The error taxonomy of the pipeline; each constructor corresponds to
one `throw new Error(...)` site of the source or to a failure mode of
the serializer. -/
inductive TxError where
  | recordImmutable : TxError
  | instructionBuilderIncompatible : TxError
  | noInstructionsProduced : TxError
  | emptyInstructionSet : TxError
  | serializationOverflow : TxError
deriving DecidableEq

/-- The duck-typed instruction extraction at lines 154-163 of the
source: prefer the `getInstructions` method, fall back to mapping and
filtering the `items` array, and fail with the incompatibility error for
any other shape. -/
def extractInstructions (b : TransactionBuilder) :
    Except TxError (List UmiInstruction) :=
  match b.getInstructions with
  | some l => .ok l
  | none =>
    match b.items with
    | some its => .ok (its.filterMap id)
    | none => .error .instructionBuilderIncompatible

/-! ### Base-conversion helpers

Fuel-based little-endian digit expansion, so that every definition
reduces in the kernel. -/

/-- Little-endian digits of `n` in base `b`, with explicit fuel. -/
def digitsAuxLE (b : Nat) : Nat → Nat → List Nat
  | 0, _ => []
  | fuel + 1, n => if n = 0 then [] else n % b :: digitsAuxLE b fuel (n / b)

/-- Minimal little-endian digits of `n` in base `b` (empty for zero). -/
def natDigitsLE (b n : Nat) : List Nat :=
  digitsAuxLE b n n

/-- Value of a little-endian digit list in base `b`. -/
def ofDigitsLE (b : Nat) : List Nat → Nat
  | [] => 0
  | d :: ds => d + b * ofDigitsLE b ds

/-- Length of the longest prefix whose elements satisfy `p`. -/
def countLeading (p : α → Bool) : List α → Nat
  | [] => 0
  | a :: as => if p a then countLeading p as + 1 else 0

/-! ### Base58 (output encoding)

Modelled from the spec: the `bs58` library used at line 182 of the
source is not part of this repository; it is the standard base58
encoding (leading zero bytes become leading units, the rest is a base
conversion of the big-endian byte value), with no padding characters. -/

/-- The base58 alphabet. -/
def base58Chars : List Char :=
  "123456789ABCDEFGHJKLMNPQRSTUVWXYZabcdefghijkmnopqrstuvwxyz".toList

/-- The character of one base58 digit. -/
def b58Char (d : Nat) : Char :=
  base58Chars.getD d '1'

/-- The digit value of one base58 character, `none` for a character
outside the alphabet. -/
def b58Val (c : Char) : Option Nat :=
  base58Chars.findIdx? (· == c)

/-- Digit values of a character list, failing on the first character
outside the alphabet. -/
def b58Vals : List Char → Option (List Nat)
  | [] => some []
  | c :: cs =>
    match b58Val c, b58Vals cs with
    | some d, some ds => some (d :: ds)
    | _, _ => none

/-- Modelled from the spec: `bs58.encode` — each leading zero byte
becomes a unit character, the remaining bytes are read as a big-endian
number and rewritten in base 58. -/
def bs58encode (bs : List Nat) : String :=
  String.mk (List.replicate (countLeading (· == 0) bs) '1'
    ++ (natDigitsLE 58 (ofDigitsLE 256 bs.reverse)).reverse.map b58Char)

/-- Modelled from the spec: `bs58.decode` — leading unit characters
become zero bytes, the remaining characters are read as a base-58 number
and rewritten in base 256; a character outside the alphabet fails. -/
def bs58decode (s : String) : Option (List Nat) :=
  let cs := s.toList
  let z := countLeading (· == '1') cs
  match b58Vals (cs.drop z) with
  | none => none
  | some ds =>
    some (List.replicate z 0 ++ (natDigitsLE 256 (ofDigitsLE 58 ds.reverse)).reverse)

/-! ### Wire serialization (transaction encoder)

Modelled from the spec: `Transaction.serialize` of the web3 library
(called at lines 177-180 of the source) is not part of this repository.
The model is a deterministic byte encoding of the envelope — fee payer,
placeholder blockhash, ordered instruction list, zero signatures — with
the two failure modes the spec requires of the encoder: rejecting an
empty instruction set and rejecting an oversized payload. -/

/-- Three bytes encoding one character code point. -/
def charBytes (c : Char) : List Nat :=
  [c.toNat / 65536 % 256, c.toNat / 256 % 256, c.toNat % 256]

/-- Two bytes encoding a length. -/
def encLen (n : Nat) : List Nat :=
  [n % 256, n / 256 % 256]

/-- Length-prefixed byte encoding of a string. -/
def strBytes (s : String) : List Nat :=
  encLen s.length ++ s.toList.flatMap charBytes

/-- One byte encoding a boolean. -/
def encodeBool (b : Bool) : List Nat :=
  [if b then 1 else 0]

/-- Tag-prefixed byte encoding of an optional value. -/
def encodeOption (f : α → List Nat) : Option α → List Nat
  | none => [0]
  | some a => 1 :: f a

/-- Byte encoding of one creator entry. -/
def encodeCreator (c : Creator) : List Nat :=
  strBytes c.address ++ encodeBool c.verified ++ [c.share % 256]

/-- Byte encoding of a collection reference. -/
def encodeCollection (c : CollectionRef) : List Nat :=
  encodeBool c.verified ++ strBytes c.key

/-- Byte encoding of a usage-limit descriptor. -/
def encodeUses (u : UsesRef) : List Nat :=
  [u.useMethod % 256] ++ encLen u.remaining ++ encLen u.total

/-- Byte encoding of a `DataV2` payload. -/
def encodeDataV2 (d : DataV2) : List Nat :=
  strBytes d.name ++ strBytes d.symbol ++ strBytes d.uri
    ++ encLen d.sellerFeeBasisPoints
    ++ encodeOption (fun cs => encLen cs.length ++ cs.flatMap encodeCreator) d.creators
    ++ encodeOption encodeCollection d.collection
    ++ encodeOption encodeUses d.uses

/-- The arguments the source passes to the library instruction builder
at lines 144-151. -/
structure UpdateMetadataArgs where
  metadata : String
  updateAuthority : String
  data : DataV2
  newUpdateAuthority : Option String
  primarySaleHappened : Bool
  isMutable : Bool
deriving DecidableEq

/-- The token-metadata program id. -/
def tokenMetadataProgramId : String :=
  "metaqbxxUerdq28cj1RbAWkYQm3ybzjb6a8bt518x1s"

/-- Modelled from the spec: the data payload of the update-metadata
instruction — a discriminator, the merged data, the keep-existing-
authority sentinel, and the pass-through flags. -/
def updateInstructionBytes (a : UpdateMetadataArgs) : List Nat :=
  15 :: encodeOption encodeDataV2 (some a.data)
    ++ encodeOption strBytes a.newUpdateAuthority
    ++ encodeBool a.primarySaleHappened
    ++ encodeBool a.isMutable

/-- Modelled from the spec: the single native update-metadata
instruction the library builder produces — the metadata account
(writable, not a signer) and the update authority (signer, not
writable), in that order, with the encoded payload. -/
def updateMetadataIx (a : UpdateMetadataArgs) : UmiInstruction :=
  { programId := tokenMetadataProgramId
    keys := [{ pubkey := a.metadata, isSigner := .boolv false, isWritable := .boolv true },
             { pubkey := a.updateAuthority, isSigner := .boolv true, isWritable := .boolv false }]
    data := updateInstructionBytes a }

/-- Modelled from the spec: `updateMetadataAccountV2` returns a
composite builder whose extraction method yields exactly one native
instruction. -/
def updateMetadataAccountV2 (a : UpdateMetadataArgs) : TransactionBuilder :=
  { getInstructions := some [updateMetadataIx a]
    items := none }

/-- The unsigned transaction envelope the source assembles at lines
170-175: ordered instructions, placeholder blockhash, fee payer. -/
structure Transaction where
  feePayer : String
  recentBlockhash : String
  instructions : List TransactionInstruction
deriving DecidableEq

/-- Byte encoding of one adapted instruction. -/
def encodeInstruction (ix : TransactionInstruction) : List Nat :=
  strBytes ix.programId
    ++ encLen ix.keys.length
    ++ ix.keys.flatMap (fun k => strBytes k.pubkey ++ encodeBool k.isSigner ++ encodeBool k.isWritable)
    ++ encLen ix.data.length
    ++ ix.data.map (· % 256)

/-- The serialized message bytes of an envelope: zero signatures, fee
payer, blockhash, then the ordered instructions. -/
def messageBytes (tx : Transaction) : List Nat :=
  0 :: strBytes tx.feePayer ++ strBytes tx.recentBlockhash
    ++ encLen tx.instructions.length
    ++ tx.instructions.flatMap encodeInstruction

/-- The ledger's maximum transaction size. -/
def maxTransactionSize : Nat := 1232

/-- Modelled from the spec: the wire serializer — deterministic bytes of
the envelope, rejecting an empty instruction set and an oversized
payload. -/
def serializeTx (tx : Transaction) : Except TxError (List Nat) :=
  if tx.instructions.isEmpty then .error .emptyInstructionSet
  else if maxTransactionSize < (messageBytes tx).length then .error .serializationOverflow
  else .ok (messageBytes tx)

/-- The placeholder blockhash of the source (line 174): the base58 form
of the all-zero default public key. -/
def defaultPubkeyBase58 : String :=
  bs58encode (List.replicate 32 0)

/-- The observable result of a successful run: whether the authority
warning of lines 121-126 was printed, the serialized bytes, and their
base58 encoding. -/
structure RunOutput where
  authorityMismatch : Bool
  serialized : List Nat
  base58Tx : String
deriving DecidableEq

/-- The pipeline of `main` from line 121 on, with the fetched record,
the validated request fields and the library instruction builder as
inputs: record the authority warning, abort on an immutable record,
merge the data, build and extract the instructions, abort when none
were produced, adapt them, assemble the envelope with the placeholder
blockhash and the asserted authority as fee payer, serialize, and
base58-encode. -/
def runPipeline (md : Metadata) (auth uri : String) (newName newSymbol : Option String)
    (pda : String) (mkBuilder : UpdateMetadataArgs → TransactionBuilder) :
    Except TxError RunOutput :=
  let mismatch := md.updateAuthority != auth
  if md.isMutable = false then .error .recordImmutable
  else
    let data := buildData md newName newSymbol uri
    let builder := mkBuilder
      { metadata := pda, updateAuthority := auth, data := data,
        newUpdateAuthority := none,
        primarySaleHappened := md.primarySaleHappened, isMutable := md.isMutable }
    match extractInstructions builder with
    | .error e => .error e
    | .ok umiIxs =>
      if umiIxs.length = 0 then .error .noInstructionsProduced
      else
        let tx : Transaction :=
          { feePayer := auth, recentBlockhash := defaultPubkeyBase58,
            instructions := umiIxs.map toWeb3Instruction }
        match serializeTx tx with
        | .error e => .error e
        | .ok serialized =>
          .ok { authorityMismatch := mismatch, serialized := serialized,
                base58Tx := bs58encode serialized }

/-- The pipeline with the library builder of the source. -/
def runDefault (md : Metadata) (auth uri : String) (newName newSymbol : Option String)
    (pda : String) : Except TxError RunOutput :=
  runPipeline md auth uri newName newSymbol pda updateMetadataAccountV2

/-- The envelope a default run assembles. -/
def defaultEnvelope (md : Metadata) (auth uri : String) (newName newSymbol : Option String)
    (pda : String) : Transaction :=
  { feePayer := auth
    recentBlockhash := defaultPubkeyBase58
    instructions := [updateMetadataIx
      { metadata := pda, updateAuthority := auth,
        data := buildData md newName newSymbol uri,
        newUpdateAuthority := none,
        primarySaleHappened := md.primarySaleHappened,
        isMutable := md.isMutable }].map toWeb3Instruction }

/-- The output a successful default run produces. -/
def defaultOutput (md : Metadata) (auth uri : String) (newName newSymbol : Option String)
    (pda : String) : RunOutput :=
  { authorityMismatch := md.updateAuthority != auth
    serialized := messageBytes (defaultEnvelope md auth uri newName newSymbol pda)
    base58Tx := bs58encode (messageBytes (defaultEnvelope md auth uri newName newSymbol pda)) }

/-! ### Lemmas on the base-conversion helpers -/

theorem digitsAuxLE_zero (b : Nat) (fuel : Nat) : digitsAuxLE b fuel 0 = [] := by
  cases fuel <;> simp [digitsAuxLE]

theorem ofDigitsLE_digitsAuxLE (b : Nat) (hb : 2 ≤ b) :
    ∀ fuel n, n ≤ fuel → ofDigitsLE b (digitsAuxLE b fuel n) = n := by
  intro fuel
  induction fuel with
  | zero =>
    intro n hn
    have : n = 0 := Nat.le_zero.mp hn
    simp [this, digitsAuxLE, ofDigitsLE]
  | succ f ih =>
    intro n hn
    by_cases h0 : n = 0
    · simp [h0, digitsAuxLE, ofDigitsLE]
    · have hpos : 0 < n := Nat.pos_of_ne_zero h0
      have hdiv : n / b < n := Nat.div_lt_self hpos (by omega)
      rw [digitsAuxLE, if_neg h0, ofDigitsLE, ih (n / b) (by omega)]
      exact Nat.mod_add_div n b

theorem ofDigitsLE_natDigitsLE (b : Nat) (hb : 2 ≤ b) (n : Nat) :
    ofDigitsLE b (natDigitsLE b n) = n :=
  ofDigitsLE_digitsAuxLE b hb n n (Nat.le_refl n)

theorem digitsAuxLE_lt (b : Nat) (hb : 0 < b) :
    ∀ fuel n x, x ∈ digitsAuxLE b fuel n → x < b := by
  intro fuel
  induction fuel with
  | zero => intro n x hx; simp [digitsAuxLE] at hx
  | succ f ih =>
    intro n x hx
    by_cases h0 : n = 0
    · simp [h0, digitsAuxLE] at hx
    · rw [digitsAuxLE, if_neg h0] at hx
      rcases List.mem_cons.mp hx with h | h
      · exact h ▸ Nat.mod_lt n hb
      · exact ih (n / b) x h

theorem digitsAuxLE_ne_nil (b : Nat) (fuel n : Nat) (hf : 0 < fuel) (hn : 0 < n) :
    digitsAuxLE b fuel n ≠ [] := by
  cases fuel with
  | zero => omega
  | succ f => rw [digitsAuxLE, if_neg (by omega)]; simp

theorem getLast?_digitsAuxLE (b : Nat) (hb : 2 ≤ b) :
    ∀ fuel n d, n ≤ fuel → (digitsAuxLE b fuel n).getLast? = some d →
      d ≠ 0 ∧ d < b := by
  intro fuel
  induction fuel with
  | zero => intro n d _ h; simp [digitsAuxLE] at h
  | succ f ih =>
    intro n d hn h
    by_cases h0 : n = 0
    · simp [h0, digitsAuxLE] at h
    · have hpos : 0 < n := Nat.pos_of_ne_zero h0
      rw [digitsAuxLE, if_neg h0] at h
      by_cases hq : n / b = 0
      · have hlt : n < b := by
          rcases Nat.lt_or_ge n b with h | h
          · exact h
          · have := Nat.one_le_div_iff (show 0 < b by omega) |>.mpr h
            omega
        rw [hq, digitsAuxLE_zero, List.getLast?_singleton] at h
        have : d = n % b := by simpa using h.symm
        rw [Nat.mod_eq_of_lt hlt] at this
        omega
      · have hqpos : 0 < n / b := Nat.pos_of_ne_zero hq
        have hdiv : n / b < n := Nat.div_lt_self hpos (by omega)
        have hfpos : 0 < f := by omega
        have hne : digitsAuxLE b f (n / b) ≠ [] := digitsAuxLE_ne_nil b f (n / b) hfpos hqpos
        obtain ⟨y, ys, hys⟩ := List.exists_cons_of_ne_nil hne
        rw [hys, List.getLast?_cons_cons] at h
        exact ih (n / b) d (by omega) (by rw [hys]; exact h)

theorem ofDigitsLE_pos (b : Nat) (hb : 2 ≤ b) :
    ∀ l : List Nat, l ≠ [] → l.getLast? ≠ some 0 → 0 < ofDigitsLE b l := by
  intro l
  induction l with
  | nil => intro h; simp at h
  | cons d ds ih =>
    intro _ hlast
    cases ds with
    | nil =>
      simp [List.getLast?_singleton] at hlast
      simp [ofDigitsLE]
      omega
    | cons e es =>
      rw [List.getLast?_cons_cons] at hlast
      have := ih (by simp) hlast
      rw [ofDigitsLE]
      have : b * ofDigitsLE b (e :: es) ≥ b * 1 := Nat.mul_le_mul_left b this
      omega

theorem digitsAuxLE_ofDigitsLE (b : Nat) (hb : 2 ≤ b) :
    ∀ (l : List Nat) fuel, (∀ x ∈ l, x < b) → l.getLast? ≠ some 0 →
      ofDigitsLE b l ≤ fuel → digitsAuxLE b fuel (ofDigitsLE b l) = l := by
  intro l
  induction l with
  | nil => intro fuel _ _ _; simp [ofDigitsLE, digitsAuxLE_zero]
  | cons d ds ih =>
    intro fuel hlt hlast hfuel
    cases ds with
    | nil =>
      simp [List.getLast?_singleton] at hlast
      have hd : d < b := hlt d (by simp)
      have hdpos : 0 < d := Nat.pos_of_ne_zero hlast
      simp only [ofDigitsLE, Nat.mul_zero, Nat.add_zero] at hfuel ⊢
      cases fuel with
      | zero => omega
      | succ f =>
        rw [digitsAuxLE, if_neg (by omega), Nat.mod_eq_of_lt hd,
          Nat.div_eq_of_lt hd, digitsAuxLE_zero]
    | cons e es =>
      rw [List.getLast?_cons_cons] at hlast
      have hN : 0 < ofDigitsLE b (e :: es) := ofDigitsLE_pos b hb _ (by simp) hlast
      have hd : d < b := hlt d (by simp)
      have hn : ofDigitsLE b (d :: e :: es) = d + b * ofDigitsLE b (e :: es) := rfl
      have hnpos : 0 < ofDigitsLE b (d :: e :: es) := by
        rw [hn]
        have : b * ofDigitsLE b (e :: es) ≥ b * 1 := Nat.mul_le_mul_left b hN
        omega
      cases fuel with
      | zero => omega
      | succ f =>
        rw [hn, digitsAuxLE, if_neg (by omega), Nat.add_mul_mod_self_left,
          Nat.mod_eq_of_lt hd, Nat.add_mul_div_left d _ (show (0:Nat) < b by omega),
          Nat.div_eq_of_lt hd, Nat.zero_add]
        have hdivlt : ofDigitsLE b (e :: es) ≤ f := by
          have h1 : d + b * ofDigitsLE b (e :: es) ≤ f + 1 := hn ▸ hfuel
          have h2 : 2 * ofDigitsLE b (e :: es) ≤ b * ofDigitsLE b (e :: es) :=
            Nat.mul_le_mul_right _ hb
          omega
        rw [ih f (fun x hx => hlt x (by simp [hx])) hlast hdivlt]

theorem natDigitsLE_ofDigitsLE (b : Nat) (hb : 2 ≤ b) (l : List Nat)
    (hlt : ∀ x ∈ l, x < b) (hlast : l.getLast? ≠ some 0) :
    natDigitsLE b (ofDigitsLE b l) = l :=
  digitsAuxLE_ofDigitsLE b hb l (ofDigitsLE b l) hlt hlast (Nat.le_refl _)

/-! ### Lemmas on `countLeading` -/

theorem countLeading_replicate_append (p : α → Bool) (a : α) (hp : p a = true) :
    ∀ z (l : List α), countLeading p (List.replicate z a ++ l) = z + countLeading p l := by
  intro z
  induction z with
  | zero => intro l; simp
  | succ k ih =>
    intro l
    rw [List.replicate_succ, List.cons_append, countLeading, if_pos hp, ih l]
    omega

theorem countLeading_eq_zero (p : α → Bool) (l : List α)
    (h : ∀ x, l.head? = some x → p x = false) : countLeading p l = 0 := by
  cases l with
  | nil => rfl
  | cons a as =>
    have := h a rfl
    simp [countLeading, this]

theorem replicate_append_drop_countLeading (p : α → Bool) (a : α)
    (hpa : ∀ x, p x = true → x = a) :
    ∀ l : List α, List.replicate (countLeading p l) a ++ l.drop (countLeading p l) = l := by
  intro l
  induction l with
  | nil => simp [countLeading]
  | cons x xs ih =>
    by_cases hx : p x
    · have hxa := hpa x hx
      subst hxa
      rw [countLeading, if_pos hx, List.replicate_succ, List.cons_append,
        List.drop_succ_cons]
      exact congrArg (x :: ·) ih
    · rw [countLeading, if_neg hx]
      simp

theorem head?_drop_countLeading (p : α → Bool) :
    ∀ (l : List α) x, (l.drop (countLeading p l)).head? = some x → p x = false := by
  intro l
  induction l with
  | nil => intro x h; simp at h
  | cons y ys ih =>
    intro x h
    by_cases hy : p y
    · rw [countLeading, if_pos hy, List.drop_succ_cons] at h
      exact ih x h
    · rw [countLeading, if_neg hy, List.drop_zero] at h
      simp at h
      rw [← h]
      exact Bool.eq_false_iff.mpr (fun hc => hy (by simp [hc]))

/-! ### Lemmas on the base58 alphabet -/

theorem b58Val_b58Char : ∀ d, d < 58 → b58Val (b58Char d) = some d := by decide

theorem b58Char_ne_one : ∀ d, d < 58 → d ≠ 0 → (b58Char d == '1') = false := by decide

theorem b58Vals_map_b58Char :
    ∀ ds : List Nat, (∀ d ∈ ds, d < 58) → b58Vals (ds.map b58Char) = some ds := by
  intro ds
  induction ds with
  | nil => intro _; rfl
  | cons d rest ih =>
    intro h
    rw [List.map_cons, b58Vals, b58Val_b58Char d (h d (by simp)),
      ih (fun x hx => h x (by simp [hx]))]

/-! ### The base58 round trip -/

theorem bs58_roundtrip (bs : List Nat) (hbs : ∀ x ∈ bs, x < 256) :
    bs58decode (bs58encode bs) = some bs := by
  set z := countLeading (· == 0) bs with hz
  set rest := bs.drop z with hrest
  have hsplit : List.replicate z 0 ++ rest = bs :=
    replicate_append_drop_countLeading (· == 0) 0 (fun x hx => by simpa using hx) bs
  have hresthead : ∀ x, rest.head? = some x → x ≠ 0 := by
    intro x hx
    have := head?_drop_countLeading (· == 0) bs x hx
    simpa using this
  set n := ofDigitsLE 256 bs.reverse with hn
  have hnrest : n = ofDigitsLE 256 rest.reverse := by
    rw [hn, ← hsplit, List.reverse_append, List.reverse_replicate]
    generalize rest.reverse = l
    induction l with
    | nil =>
      induction z with
      | zero => rfl
      | succ k ihz => rw [List.replicate_succ]; simpa [ofDigitsLE] using ihz
    | cons d ds ihl => rw [List.cons_append, ofDigitsLE, ofDigitsLE, ihl]
  set digs := (natDigitsLE 58 n).reverse with hdigs
  have hdlt : ∀ d ∈ digs, d < 58 := by
    intro d hd
    rw [hdigs, List.mem_reverse] at hd
    exact digitsAuxLE_lt 58 (by omega) n n d hd
  have hdhead : ∀ c, (digs.map b58Char).head? = some c → (c == '1') = false := by
    intro c hc
    rw [List.head?_map] at hc
    rcases hd : digs.head? with _ | d
    · rw [hd] at hc; simp at hc
    · rw [hd] at hc
      simp at hc
      have hlast : (natDigitsLE 58 n).getLast? = some d := by
        rw [← List.head?_reverse, ← hdigs, hd]
      have := getLast?_digitsAuxLE 58 (by omega) n n d (Nat.le_refl n) hlast
      rw [← hc]
      exact b58Char_ne_one d this.2 this.1
  have hcount : countLeading (· == '1') (List.replicate z '1' ++ digs.map b58Char) = z := by
    rw [countLeading_replicate_append (· == '1') '1' (by simp) z,
      countLeading_eq_zero (· == '1') (digs.map b58Char) hdhead]
    omega
  rw [bs58encode, bs58decode]
  simp only [← hz, ← hn, ← hdigs]
  have htolist :
      (String.mk (List.replicate z '1' ++ digs.map b58Char)).toList
        = List.replicate z '1' ++ digs.map b58Char := rfl
  rw [htolist, hcount]
  have hdrop : (List.replicate z '1' ++ digs.map b58Char).drop z = digs.map b58Char := by
    have := List.drop_left (List.replicate z '1') (digs.map b58Char)
    rwa [List.length_replicate] at this
  rw [hdrop, b58Vals_map_b58Char digs hdlt]
  have hofd : ofDigitsLE 58 digs.reverse = n := by
    rw [hdigs, List.reverse_reverse]
    exact ofDigitsLE_natDigitsLE 58 (by omega) n
  show some (List.replicate z 0 ++ (natDigitsLE 256 (ofDigitsLE 58 digs.reverse)).reverse)
    = some bs
  rw [hofd]
  have hrestlt : ∀ x ∈ rest.reverse, x < 256 := by
    intro x hx
    rw [List.mem_reverse] at hx
    exact hbs x (List.mem_of_mem_drop (hrest ▸ hx))
  have hrestlast : rest.reverse.getLast? ≠ some 0 := by
    rw [List.getLast?_reverse]
    intro hc
    exact hresthead 0 hc rfl
  have hback : natDigitsLE 256 n = rest.reverse := by
    rw [hnrest]
    exact natDigitsLE_ofDigitsLE 256 (by omega) rest.reverse hrestlt hrestlast
  rw [hback, List.reverse_reverse, hsplit]

/-! ### Bounds on the serialized bytes -/

theorem append_lt {l₁ l₂ : List Nat} (h₁ : ∀ x ∈ l₁, x < 256) (h₂ : ∀ x ∈ l₂, x < 256) :
    ∀ x ∈ l₁ ++ l₂, x < 256 := by
  intro x hx
  rcases List.mem_append.mp hx with h | h
  · exact h₁ x h
  · exact h₂ x h

theorem flatMap_lt {f : α → List Nat} (l : List α) (hf : ∀ a, ∀ x ∈ f a, x < 256) :
    ∀ x ∈ l.flatMap f, x < 256 := by
  intro x hx
  rcases List.mem_flatMap.mp hx with ⟨a, _, h⟩
  exact hf a x h

theorem charBytes_lt (c : Char) : ∀ x ∈ charBytes c, x < 256 := by
  intro x hx
  simp [charBytes] at hx
  rcases hx with h | h | h <;> subst h <;> exact Nat.mod_lt _ (by omega)

theorem encLen_lt (n : Nat) : ∀ x ∈ encLen n, x < 256 := by
  intro x hx
  simp [encLen] at hx
  rcases hx with h | h <;> subst h <;> exact Nat.mod_lt _ (by omega)

theorem strBytes_lt (s : String) : ∀ x ∈ strBytes s, x < 256 :=
  append_lt (encLen_lt s.length) (flatMap_lt s.toList charBytes_lt)

theorem encodeBool_lt (b : Bool) : ∀ x ∈ encodeBool b, x < 256 := by
  intro x hx
  cases b <;> simp [encodeBool] at hx <;> omega

theorem encodeInstruction_lt (ix : TransactionInstruction) :
    ∀ x ∈ encodeInstruction ix, x < 256 :=
  append_lt
    (append_lt
      (append_lt
        (append_lt (strBytes_lt ix.programId) (encLen_lt ix.keys.length))
        (flatMap_lt ix.keys (fun k =>
          append_lt (append_lt (strBytes_lt k.pubkey) (encodeBool_lt k.isSigner))
            (encodeBool_lt k.isWritable))))
      (encLen_lt ix.data.length))
    (by
      intro x hx
      rcases List.mem_map.mp hx with ⟨d, _, hd⟩
      rw [← hd]
      exact Nat.mod_lt _ (by omega))

theorem messageBytes_lt (tx : Transaction) : ∀ x ∈ messageBytes tx, x < 256 := by
  intro x hx
  rcases List.mem_cons.mp hx with h | h
  · omega
  · exact append_lt
      (append_lt
        (append_lt (strBytes_lt tx.feePayer) (strBytes_lt tx.recentBlockhash))
        (encLen_lt tx.instructions.length))
      (flatMap_lt tx.instructions encodeInstruction_lt) x h

/-! ### Unfolding the pipeline -/

theorem runPipeline_immutable (md : Metadata) (auth uri : String)
    (newName newSymbol : Option String) (pda : String)
    (mkBuilder : UpdateMetadataArgs → TransactionBuilder)
    (hm : md.isMutable = false) :
    runPipeline md auth uri newName newSymbol pda mkBuilder = .error .recordImmutable := by
  simp [runPipeline, hm]

theorem serializeTx_defaultEnvelope_ok (md : Metadata) (auth uri : String)
    (newName newSymbol : Option String) (pda : String)
    (hs : (messageBytes (defaultEnvelope md auth uri newName newSymbol pda)).length
      ≤ maxTransactionSize) :
    serializeTx (defaultEnvelope md auth uri newName newSymbol pda)
      = .ok (messageBytes (defaultEnvelope md auth uri newName newSymbol pda)) := by
  rw [serializeTx, if_neg (by simp [defaultEnvelope]), if_neg (Nat.not_lt.mpr hs)]

theorem runDefault_ok (md : Metadata) (auth uri : String) (newName newSymbol : Option String)
    (pda : String) (hm : md.isMutable = true)
    (hs : (messageBytes (defaultEnvelope md auth uri newName newSymbol pda)).length
      ≤ maxTransactionSize) :
    runDefault md auth uri newName newSymbol pda
      = .ok (defaultOutput md auth uri newName newSymbol pda) := by
  have hser := serializeTx_defaultEnvelope_ok md auth uri newName newSymbol pda hs
  simp only [defaultEnvelope, hm, List.map_cons, List.map_nil] at hser
  simp [runDefault, runPipeline, hm, extractInstructions, updateMetadataAccountV2,
    hser, defaultOutput, defaultEnvelope]

theorem runDefault_overflow (md : Metadata) (auth uri : String)
    (newName newSymbol : Option String) (pda : String) (hm : md.isMutable = true)
    (hs : maxTransactionSize
      < (messageBytes (defaultEnvelope md auth uri newName newSymbol pda)).length) :
    runDefault md auth uri newName newSymbol pda = .error .serializationOverflow := by
  have hser : serializeTx (defaultEnvelope md auth uri newName newSymbol pda)
      = .error .serializationOverflow := by
    rw [serializeTx, if_neg (by simp [defaultEnvelope]), if_pos hs]
  simp only [defaultEnvelope, hm, List.map_cons, List.map_nil] at hser
  simp [runDefault, runPipeline, hm, extractInstructions, updateMetadataAccountV2, hser]

theorem runDefault_ok_inv (md : Metadata) (auth uri : String)
    (newName newSymbol : Option String) (pda : String) (out : RunOutput)
    (h : runDefault md auth uri newName newSymbol pda = .ok out) :
    md.isMutable = true ∧
    serializeTx (defaultEnvelope md auth uri newName newSymbol pda)
      = .ok (messageBytes (defaultEnvelope md auth uri newName newSymbol pda)) ∧
    out = defaultOutput md auth uri newName newSymbol pda := by
  rcases hm : md.isMutable with _ | _
  · rw [runDefault, runPipeline_immutable md auth uri newName newSymbol pda _ hm] at h
    simp at h
  · rcases Nat.lt_or_ge maxTransactionSize
      (messageBytes (defaultEnvelope md auth uri newName newSymbol pda)).length with hbig | hok
    · rw [runDefault_overflow md auth uri newName newSymbol pda hm hbig] at h
      simp at h
    · rw [runDefault_ok md auth uri newName newSymbol pda hm hok] at h
      simp only [Except.ok.injEq] at h
      exact ⟨rfl, serializeTx_defaultEnvelope_ok md auth uri newName newSymbol pda hok, h.symm⟩

/-! ### Sample values used by the witnesses -/

/-- A concrete mutable record. -/
def mdSample : Metadata :=
  { updateAuthority := "AuthX", isMutable := true, name := "Name", symbol := "SYM",
    uri := "ipfs://old", sellerFeeBasisPoints := 500, creators := none,
    collection := none, uses := none, primarySaleHappened := false }

/-- A concrete native instruction with three accounts and mixed flag
representations. -/
def ixSample : UmiInstruction :=
  { programId := "Prog1"
    keys := [{ pubkey := "K1", isSigner := .numv 1, isWritable := .boolv true },
             { pubkey := "K2", isSigner := .boolv false, isWritable := .strv "" },
             { pubkey := "K3", isSigner := .nullv, isWritable := .numv 0 }]
    data := [1, 2, 3] }

/-! ### The claims -/

/-- Claim C1: for a fixed (record, request) pair the pipeline is deterministic —
running it twice gives the same result — and every successful run serializes
exactly the envelope whose recent blockhash is the fixed placeholder (the
base58 form of the all-zero key) and whose fee payer is the asserted
authority.  The embedding is a pure function of its inputs, reflecting that
the source threads no randomness or time between envelope construction
(lines 170-175) and serialization (lines 177-182). -/
theorem claim_c1_deterministic (md : Metadata) (auth uri : String)
    (newName newSymbol : Option String) (pda : String) :
    runDefault md auth uri newName newSymbol pda
      = runDefault md auth uri newName newSymbol pda ∧
    (defaultEnvelope md auth uri newName newSymbol pda).recentBlockhash
      = bs58encode (List.replicate 32 0) ∧
    (defaultEnvelope md auth uri newName newSymbol pda).feePayer = auth ∧
    ∀ out, runDefault md auth uri newName newSymbol pda = .ok out →
      serializeTx (defaultEnvelope md auth uri newName newSymbol pda)
        = .ok out.serialized := by
  refine ⟨rfl, rfl, rfl, ?_⟩
  intro out h
  obtain ⟨_, hser, hout⟩ := runDefault_ok_inv md auth uri newName newSymbol pda out h
  rw [hout]
  exact hser

set_option maxRecDepth 100000 in
theorem claim_c1_witness :
    serializeTx (defaultEnvelope mdSample "AuthX" "ipfs://new" none none "Pda1")
      = .ok (defaultOutput mdSample "AuthX" "ipfs://new" none none "Pda1").serialized :=
  (claim_c1_deterministic mdSample "AuthX" "ipfs://new" none none "Pda1").2.2.2
    (defaultOutput mdSample "AuthX" "ipfs://new" none none "Pda1")
    (runDefault_ok mdSample "AuthX" "ipfs://new" none none "Pda1" rfl (by decide))

/-- Claim C2: for every record with isMutable = false the pipeline fails with the
terminal RecordImmutable error, whatever the asserted authority and whatever
the instruction builder, and no instruction is built and no output bytes are
produced (the run ends in the error, before the builder is consulted). -/
theorem claim_c2_immutable (md : Metadata) (auth uri : String)
    (newName newSymbol : Option String) (pda : String)
    (mkBuilder : UpdateMetadataArgs → TransactionBuilder)
    (hm : md.isMutable = false) :
    runPipeline md auth uri newName newSymbol pda mkBuilder = .error .recordImmutable :=
  runPipeline_immutable md auth uri newName newSymbol pda mkBuilder hm

theorem claim_c2_witness :
    runPipeline { mdSample with isMutable := false } "AuthX" "u" none none "P"
      updateMetadataAccountV2 = .error .recordImmutable :=
  claim_c2_immutable { mdSample with isMutable := false } "AuthX" "u" none none "P"
    updateMetadataAccountV2 rfl

/-- Claim C3: a request that sets only the URI leaves every other field of the
merged data exactly equal to the record, including the optional fields,
whose present-but-empty and absent representations are distinct values of
the Option type and are copied as they are. -/
theorem claim_c3_preservation (md : Metadata) (u : String) :
    (buildData md none none u).creators = md.creators ∧
    (buildData md none none u).collection = md.collection ∧
    (buildData md none none u).uses = md.uses ∧
    (buildData md none none u).sellerFeeBasisPoints = md.sellerFeeBasisPoints ∧
    (buildData md none none u).name = md.name ∧
    (buildData md none none u).symbol = md.symbol ∧
    (buildData md none none u).uri = u :=
  ⟨rfl, rfl, rfl, rfl, rfl, rfl, rfl⟩

/-- Claim C4: when the record's on-chain authority differs from the asserted
authority but the record is mutable, the pipeline still succeeds (whenever
the serialized payload fits the ledger limit) and the output carries the
mismatch flag, the counterpart of the warning printed at lines 121-126. -/
theorem claim_c4_mismatch_nonfatal (md : Metadata) (auth uri : String)
    (newName newSymbol : Option String) (pda : String)
    (hm : md.isMutable = true) (hne : md.updateAuthority ≠ auth)
    (hs : (messageBytes (defaultEnvelope md auth uri newName newSymbol pda)).length
      ≤ maxTransactionSize) :
    runDefault md auth uri newName newSymbol pda
      = .ok (defaultOutput md auth uri newName newSymbol pda) ∧
    (defaultOutput md auth uri newName newSymbol pda).authorityMismatch = true := by
  refine ⟨runDefault_ok md auth uri newName newSymbol pda hm hs, ?_⟩
  simp [defaultOutput, hne]

set_option maxRecDepth 100000 in
theorem claim_c4_witness :
    runDefault mdSample "Other" "ipfs://new" none none "Pda1"
      = .ok (defaultOutput mdSample "Other" "ipfs://new" none none "Pda1") ∧
    (defaultOutput mdSample "Other" "ipfs://new" none none "Pda1").authorityMismatch = true :=
  claim_c4_mismatch_nonfatal mdSample "Other" "ipfs://new" none none "Pda1" rfl
    (by decide) (by decide)

/-- Claim C5: base58 decoding inverts base58 encoding on every byte sequence, and
in particular the text output of a successful run decodes back to exactly
the serialized byte sequence that was fed into the encoder. -/
theorem claim_c5_roundtrip (bs : List Nat) (hbs : ∀ x ∈ bs, x < 256)
    (md : Metadata) (auth uri : String) (newName newSymbol : Option String)
    (pda : String) (out : RunOutput)
    (hrun : runDefault md auth uri newName newSymbol pda = .ok out) :
    bs58decode (bs58encode bs) = some bs ∧
    bs58decode out.base58Tx = some out.serialized := by
  refine ⟨bs58_roundtrip bs hbs, ?_⟩
  obtain ⟨_, _, hout⟩ := runDefault_ok_inv md auth uri newName newSymbol pda out hrun
  rw [hout]
  exact bs58_roundtrip _ (messageBytes_lt _)

set_option maxRecDepth 100000 in
theorem claim_c5_witness :
    bs58decode (bs58encode [0, 0, 255, 1]) = some [0, 0, 255, 1] ∧
    bs58decode (defaultOutput mdSample "AuthX" "ipfs://new2" none none "Pda1").base58Tx
      = some (defaultOutput mdSample "AuthX" "ipfs://new2" none none "Pda1").serialized :=
  claim_c5_roundtrip [0, 0, 255, 1] (by decide) mdSample "AuthX" "ipfs://new2" none none
    "Pda1" (defaultOutput mdSample "AuthX" "ipfs://new2" none none "Pda1")
    (runDefault_ok mdSample "AuthX" "ipfs://new2" none none "Pda1" rfl (by decide))

/-- Claim C6: the adapter keeps the account list in order — for accounts
[A, B, C] the adapted list is [A, B, C] — with each signer/writable flag
coerced to a strict boolean, and it copies the data payload and program id
as they are. -/
theorem claim_c6_adapter (ix : UmiInstruction) :
    (toWeb3Instruction ix).programId = ix.programId ∧
    (toWeb3Instruction ix).keys = ix.keys.map (fun k =>
      { pubkey := k.pubkey, isSigner := k.isSigner.truthy,
        isWritable := k.isWritable.truthy }) ∧
    (toWeb3Instruction ix).data = ix.data ∧
    ∀ A B C, ix.keys = [A, B, C] →
      (toWeb3Instruction ix).keys =
        [{ pubkey := A.pubkey, isSigner := A.isSigner.truthy,
           isWritable := A.isWritable.truthy },
         { pubkey := B.pubkey, isSigner := B.isSigner.truthy,
           isWritable := B.isWritable.truthy },
         { pubkey := C.pubkey, isSigner := C.isSigner.truthy,
           isWritable := C.isWritable.truthy }] := by
  refine ⟨rfl, rfl, rfl, ?_⟩
  intro A B C h
  simp [toWeb3Instruction, h]

theorem claim_c6_witness :
    (toWeb3Instruction ixSample).keys =
      [{ pubkey := "K1", isSigner := true, isWritable := true },
       { pubkey := "K2", isSigner := false, isWritable := false },
       { pubkey := "K3", isSigner := false, isWritable := false }] :=
  (claim_c6_adapter ixSample).2.2.2 _ _ _ rfl

/-- Claim C7: whenever the instruction builder yields zero native instructions,
the pipeline fails with NoInstructionsProduced — no envelope is assembled,
nothing reaches the adapter or the encoder, and no output is produced. -/
theorem claim_c7_no_instructions (md : Metadata) (auth uri : String)
    (newName newSymbol : Option String) (pda : String)
    (mkBuilder : UpdateMetadataArgs → TransactionBuilder)
    (hm : md.isMutable = true)
    (hb : ∀ a, extractInstructions (mkBuilder a) = .ok []) :
    runPipeline md auth uri newName newSymbol pda mkBuilder
      = .error .noInstructionsProduced := by
  simp [runPipeline, hm, hb]

theorem claim_c7_witness :
    runPipeline mdSample "AuthX" "u" none none "P"
      (fun _ => { getInstructions := some [], items := none })
      = .error .noInstructionsProduced :=
  claim_c7_no_instructions mdSample "AuthX" "u" none none "P"
    (fun _ => { getInstructions := some [], items := none }) rfl (fun _ => rfl)

/-- Claim C8: the transaction encoder itself rejects an envelope containing zero
instructions with EmptyInstructionSet, independently of the pipeline-level
zero-instruction check. -/
theorem claim_c8_empty_rejected (payer blockhash : String) :
    serializeTx { feePayer := payer, recentBlockhash := blockhash, instructions := [] }
      = .error .emptyInstructionSet := by
  simp [serializeTx]

/-- Claim C9: instruction extraction accepts exactly two builder shapes — a
getInstructions method, whose list is taken as is, or an items array, whose
truthy instructions are taken in order — and for a builder matching neither
shape it fails with the terminal InstructionBuilderIncompatible error. -/
theorem claim_c9_extraction (b : TransactionBuilder) :
    (extractInstructions b = .error .instructionBuilderIncompatible ↔
      b.getInstructions = none ∧ b.items = none) ∧
    (∀ l, b.getInstructions = some l → extractInstructions b = .ok l) ∧
    (∀ its, b.getInstructions = none → b.items = some its →
      extractInstructions b = .ok (its.filterMap id)) := by
  obtain ⟨g, it⟩ := b
  rcases g with _ | l <;> rcases it with _ | its <;> simp [extractInstructions]

theorem claim_c9_witness :
    extractInstructions { getInstructions := none, items := none }
      = .error .instructionBuilderIncompatible ∧
    extractInstructions { getInstructions := some [ixSample], items := none }
      = .ok [ixSample] ∧
    extractInstructions { getInstructions := none, items := some [some ixSample, none] }
      = .ok [ixSample] :=
  ⟨(claim_c9_extraction { getInstructions := none, items := none }).1.mpr ⟨rfl, rfl⟩,
   (claim_c9_extraction { getInstructions := some [ixSample], items := none }).2.1
     [ixSample] rfl,
   (claim_c9_extraction { getInstructions := none, items := some [some ixSample, none] }).2.2
     [some ixSample, none] rfl rfl⟩

/-- Claim C10: an optional name/symbol input that is missing, empty, or
whitespace-only is treated as absent, so the merged data keeps the record's
name/symbol; and since a present optEnv value is its own non-empty trimmed
text, the interface can never set name or symbol to the empty string — the
merged value is empty only when the record's own value was. -/
theorem claim_c10_opt_absent (v w : Option String) (md : Metadata) (u : String) :
    (jsTrim (v.getD "") = "" → (buildData md (optEnv v) (optEnv w) u).name = md.name) ∧
    (jsTrim (w.getD "") = "" → (buildData md (optEnv v) (optEnv w) u).symbol = md.symbol) ∧
    ((buildData md (optEnv v) (optEnv w) u).name = "" → md.name = "") ∧
    ((buildData md (optEnv v) (optEnv w) u).symbol = "" → md.symbol = "") := by
  refine ⟨?_, ?_, ?_, ?_⟩
  · intro h
    rcases v with _ | s
    · rfl
    · simp only [Option.getD] at h
      simp [buildData, optEnv, h]
  · intro h
    rcases w with _ | s
    · rfl
    · simp only [Option.getD] at h
      simp [buildData, optEnv, h]
  · intro h
    rcases v with _ | s
    · exact h
    · by_cases ht : jsTrim s = ""
      · simpa [buildData, optEnv, ht] using h
      · simp [buildData, optEnv, ht] at h
  · intro h
    rcases w with _ | s
    · exact h
    · by_cases ht : jsTrim s = ""
      · simpa [buildData, optEnv, ht] using h
      · simp [buildData, optEnv, ht] at h

theorem claim_c10_witness :
    (buildData mdSample (optEnv (some "   ")) (optEnv none) "u").name = mdSample.name ∧
    (buildData mdSample (optEnv (some "   ")) (optEnv none) "u").symbol = mdSample.symbol ∧
    ({ mdSample with name := "" } : Metadata).name = "" :=
  ⟨(claim_c10_opt_absent (some "   ") none mdSample "u").1 (by decide),
   (claim_c10_opt_absent (some "   ") none mdSample "u").2.1 (by decide),
   (claim_c10_opt_absent none none { mdSample with name := "" } "u").2.2.1 (by decide)⟩

end UpdateMetadataTx
